import Mathlib

/-!
Verification development for the `fastapi-cacheable` repository.

The Python source is shallowly embedded: pure functions become Lean
functions, the mutable Redis store becomes explicit state passing, and
exception-based control flow becomes `Except`.  Python `None` is the
value `SVal.snull`; Python floats are carried as the exact rational
value of the IEEE binary64 double, and the two places where the source
performs float arithmetic on `timedelta` payloads (`total_seconds()`
and `timedelta(seconds=...)`) apply an explicit 53-bit
round-to-nearest-ties-to-even step (`roundToDouble`); the byte output
of `json.dumps` is modelled at the level of the parsed JSON structure
(`WVal`), since `json.dumps`/`json.loads` form a bijection between that
structure and its textual rendering.
-/

/-- The JSON wire structure produced by `json.dumps` with the custom
encoder of `src/fastapi_cacheable/serializer.py` and consumed by
`json.loads`.  Integer literals and float literals are distinct JSON
tokens, hence the two numeric constructors.  Floats are carried as
exact rationals. -/
inductive WVal where
  | wnull : WVal
  | wbool : Bool → WVal
  | wint : Int → WVal
  | wfloat : Rat → WVal
  | wstr : String → WVal
  | warr : List WVal → WVal
  | wobj : List (String × WVal) → WVal

/-- Python values in the domain of the serialization engine
(`serializer.py`).  Rich types carry the payload the source code
extracts from them: `datetime`/`date`/`time` their `isoformat()` string,
`timedelta` its microsecond count, `UUID` and `Decimal` their `str()`
form, enumerations their module, class name and member value, `bytes`
its byte values, pydantic models and dataclasses their class path and
dumped field mapping. -/
inductive SVal where
  | snull : SVal
  | sbool : Bool → SVal
  | sint : Int → SVal
  | sfloat : Rat → SVal
  | sstr : String → SVal
  | sdatetime : String → SVal
  | sdate : String → SVal
  | stime : String → SVal
  | stimedelta : Int → SVal
  | suuid : String → SVal
  | sdecimal : String → SVal
  | senum : String → String → SVal → SVal
  | sbytes : List Nat → SVal
  | sset : List SVal → SVal
  | sfrozenset : List SVal → SVal
  | spydantic : String → List (String × SVal) → SVal
  | sdataclass : String → List (String × SVal) → SVal
  | slist : List SVal → SVal
  | sdict : List (String × SVal) → SVal

/-- Which enum classes / pydantic models / dataclasses the decoding
hook can re-import (`__import__` in `_json_object_hook`); import
failure makes the hook return the raw payload instead. -/
structure ImportEnv where
  enumOk : String → String → Bool
  modelOk : String → Bool
  dataclassOk : String → Bool

/-- Model of `bytes.decode("latin-1")`: each byte becomes the code point of the
same value (serializer.py line 77). -/
def latin1Decode (bs : List Nat) : String :=
  String.mk (bs.map Char.ofNat)

/-- Model of `str.encode("latin-1")`: each code point back to a byte
(`_json_object_hook`, the `bytes` branch). -/
def latin1Encode (s : String) : List Nat :=
  s.data.map Char.toNat

/-- Round a rational to the nearest integer, resolving ties to the
even neighbour — the IEEE-754 and CPython tie rule. -/
def roundHalfEven (q : Rat) : Int :=
  if q - ⌊q⌋ < 1 / 2 then ⌊q⌋
  else if 1 / 2 < q - ⌊q⌋ then ⌊q⌋ + 1
  else if 2 ∣ ⌊q⌋ then ⌊q⌋ else ⌊q⌋ + 1

/-- Round a rational to 53 significant binary digits, nearest, ties to
even: the value an IEEE binary64 operation returns for this exact
result, in the double's normal range.  The `timedelta` magnitudes the
claims range over stay far from overflow and from subnormals, so
neither is modelled. -/
def roundToDouble (q : Rat) : Rat :=
  if q = 0 then 0
  else
    (roundHalfEven (q / 2 ^ (Int.log 2 |q| - 52)) : Rat) *
      2 ^ (Int.log 2 |q| - 52)

/-- Model of `timedelta.total_seconds()`: the exact microsecond count
true-divided by `10**6`, i.e. the correctly rounded double of
`us / 10^6`. -/
def totalSeconds (us : Int) : Rat :=
  roundToDouble ((us : Rat) / 1000000)

/-- Integer part of `math.modf`: truncation toward zero. -/
def ratTrunc (q : Rat) : Int :=
  if 0 ≤ q then ⌊q⌋ else ⌈q⌉

/-- Model of `timedelta(seconds=f)` for a float `f`, following
CPython's `accum`: `modf` splits `f` exactly, the integer part
contributes `trunc(f) * 10^6` exactly, the fractional part is
multiplied by `10**6` in double arithmetic (one rounding), and the
leftover fraction is rounded half to even into the total microsecond
count.  CPython resolves the tie on the parity of the whole total;
since the integer contribution is a multiple of the even `10^6`,
resolving it locally is the same. -/
def tdFromSeconds (f : Rat) : Int :=
  ratTrunc f * 1000000 +
    roundHalfEven (roundToDouble ((f - ratTrunc f) * 1000000))

mutual

/-- Model of `JSONEncoder.default` combined with `json.dumps` recursion
(serializer.py lines 36-101): each rich type becomes a tagged
`{"__type__": ..., "value": ...}` object, primitives and containers
are encoded directly. -/
def encodeW : SVal → WVal
  | .snull => .wnull
  | .sbool b => .wbool b
  | .sint n => .wint n
  | .sfloat q => .wfloat q
  | .sstr s => .wstr s
  | .sdatetime iso => .wobj [("__type__", .wstr "datetime"), ("value", .wstr iso)]
  | .sdate iso => .wobj [("__type__", .wstr "date"), ("value", .wstr iso)]
  | .stime iso => .wobj [("__type__", .wstr "time"), ("value", .wstr iso)]
  | .stimedelta us =>
      .wobj [("__type__", .wstr "timedelta"), ("value", .wfloat (totalSeconds us))]
  | .suuid s => .wobj [("__type__", .wstr "uuid"), ("value", .wstr s)]
  | .sdecimal s => .wobj [("__type__", .wstr "decimal"), ("value", .wstr s)]
  | .senum m n v =>
      .wobj [("__type__", .wstr "enum"), ("module", .wstr m),
             ("name", .wstr n), ("value", encodeW v)]
  | .sbytes bs => .wobj [("__type__", .wstr "bytes"), ("value", .wstr (latin1Decode bs))]
  | .sset xs => .wobj [("__type__", .wstr "set"), ("value", .warr (encodeWList xs))]
  | .sfrozenset xs =>
      .wobj [("__type__", .wstr "frozenset"), ("value", .warr (encodeWList xs))]
  | .spydantic p fs =>
      .wobj [("__type__", .wstr "pydantic"), ("model", .wstr p),
             ("value", .wobj (encodeWKVs fs))]
  | .sdataclass p fs =>
      .wobj [("__type__", .wstr "dataclass"), ("class", .wstr p),
             ("value", .wobj (encodeWKVs fs))]
  | .slist xs => .warr (encodeWList xs)
  | .sdict kvs => .wobj (encodeWKVs kvs)

def encodeWList : List SVal → List WVal
  | [] => []
  | x :: xs => encodeW x :: encodeWList xs

def encodeWKVs : List (String × SVal) → List (String × WVal)
  | [] => []
  | (k, v) :: kvs => (k, encodeW v) :: encodeWKVs kvs

end

/-- First value bound to `k` in an association list (Python dict
lookup; encoder-produced objects have unique keys). -/
def lookupKV (kvs : List (String × SVal)) (k : String) : Option SVal :=
  (kvs.find? (fun p => p.1 = k)).map Prod.snd

/-- The tag dispatch of `_json_object_hook` (serializer.py lines
104-177), applied to an object whose values the JSON parser has already
decoded.  Objects without the `"__type__"` key are plain dicts.  Tagged
objects whose payload does not have the shape the encoder produces
would raise inside the hook and be re-raised as a serialization error;
they are unreachable from `encodeW` and mapped to the plain dict here. -/
def hookTag (env : ImportEnv) (kvs : List (String × SVal)) : SVal :=
  match lookupKV kvs "__type__" with
  | none => .sdict kvs
  | some tag =>
    match tag with
    | .sstr "datetime" =>
        match lookupKV kvs "value" with
        | some (.sstr s) => .sdatetime s
        | _ => .sdict kvs
    | .sstr "date" =>
        match lookupKV kvs "value" with
        | some (.sstr s) => .sdate s
        | _ => .sdict kvs
    | .sstr "time" =>
        match lookupKV kvs "value" with
        | some (.sstr s) => .stime s
        | _ => .sdict kvs
    | .sstr "timedelta" =>
        match lookupKV kvs "value" with
        | some (.sint n) => .stimedelta (n * 1000000)
        | some (.sfloat q) => .stimedelta (tdFromSeconds q)
        | _ => .sdict kvs
    | .sstr "uuid" =>
        match lookupKV kvs "value" with
        | some (.sstr s) => .suuid s
        | _ => .sdict kvs
    | .sstr "decimal" =>
        match lookupKV kvs "value" with
        | some (.sstr s) => .sdecimal s
        | _ => .sdict kvs
    | .sstr "enum" =>
        match lookupKV kvs "module", lookupKV kvs "name", lookupKV kvs "value" with
        | some (.sstr m), some (.sstr n), some v =>
            if env.enumOk m n then .senum m n v else v
        | _, _, _ => .sdict kvs
    | .sstr "bytes" =>
        match lookupKV kvs "value" with
        | some (.sstr s) => .sbytes (latin1Encode s)
        | _ => .sdict kvs
    | .sstr "set" =>
        match lookupKV kvs "value" with
        | some (.slist xs) => .sset xs
        | _ => .sdict kvs
    | .sstr "frozenset" =>
        match lookupKV kvs "value" with
        | some (.slist xs) => .sfrozenset xs
        | _ => .sdict kvs
    | .sstr "pydantic" =>
        match lookupKV kvs "model", lookupKV kvs "value" with
        | some (.sstr p), some (.sdict fs) =>
            if env.modelOk p then .spydantic p fs else .sdict fs
        | _, _ => .sdict kvs
    | .sstr "dataclass" =>
        match lookupKV kvs "class", lookupKV kvs "value" with
        | some (.sstr p), some (.sdict fs) =>
            if env.dataclassOk p then .sdataclass p fs else .sdict fs
        | _, _ => .sdict kvs
    | _ => .sdict kvs

mutual

/-- Model of `json.loads(..., object_hook=_json_object_hook)`: parse the wire
structure bottom-up, running the hook on every object.  Integer
literals become Python ints, float literals floats. -/
def decodeW (env : ImportEnv) : WVal → SVal
  | .wnull => .snull
  | .wbool b => .sbool b
  | .wint n => .sint n
  | .wfloat q => .sfloat q
  | .wstr s => .sstr s
  | .warr xs => .slist (decodeWList env xs)
  | .wobj kvs => hookTag env (decodeWKVs env kvs)

def decodeWList (env : ImportEnv) : List WVal → List SVal
  | [] => []
  | x :: xs => decodeW env x :: decodeWList env xs

def decodeWKVs (env : ImportEnv) : List (String × WVal) → List (String × SVal)
  | [] => []
  | (k, v) :: kvs => (k, decodeW env v) :: decodeWKVs env kvs

end

/-- Values Python can hold in a `set`/`frozenset` (hashable values);
lists, dicts, sets, and (non-frozen) pydantic models / dataclasses are
unhashable. -/
def sHashable : SVal → Bool
  | .slist _ => false
  | .sdict _ => false
  | .sset _ => false
  | .spydantic _ _ => false
  | .sdataclass _ _ => false
  | _ => true

/-- No key of the mapping collides with the reserved `"__type__"` tag
that `_json_object_hook` dispatches on. -/
def noTypeKey (kvs : List (String × SVal)) : Bool :=
  kvs.all (fun p => !(p.1 == "__type__"))

mutual

/-- Well-formedness of a serializer-domain value: byte values fit in a
byte, set members are hashable, referenced enum/model/dataclass classes
are importable in the decoding process, no mapping uses the reserved
`"__type__"` key, and timedeltas stay within `2^51` microseconds
(about 71 years) — a conservative bound inside which the double
rounding of `total_seconds()` cannot shift the microsecond count. -/
def wfS (env : ImportEnv) : SVal → Bool
  | .snull => true
  | .sbool _ => true
  | .sint _ => true
  | .sfloat _ => true
  | .sstr _ => true
  | .sdatetime _ => true
  | .sdate _ => true
  | .stime _ => true
  | .stimedelta us => decide (us.natAbs ≤ 2 ^ 51)
  | .suuid _ => true
  | .sdecimal _ => true
  | .senum m n v => env.enumOk m n && wfS env v
  | .sbytes bs => bs.all (fun b => decide (b < 256))
  | .sset xs => xs.all sHashable && wfSList env xs
  | .sfrozenset xs => xs.all sHashable && wfSList env xs
  | .spydantic p fs => env.modelOk p && (noTypeKey fs && wfSKVs env fs)
  | .sdataclass p fs => env.dataclassOk p && (noTypeKey fs && wfSKVs env fs)
  | .slist xs => wfSList env xs
  | .sdict kvs => noTypeKey kvs && wfSKVs env kvs

def wfSList (env : ImportEnv) : List SVal → Bool
  | [] => true
  | x :: xs => wfS env x && wfSList env xs

def wfSKVs (env : ImportEnv) : List (String × SVal) → Bool
  | [] => true
  | (_, v) :: kvs => wfS env v && wfSKVs env kvs

end

/-! ## Key derivation (`key_builder.py` and `decorators.py`) -/

/-- Python argument values in the domain of
`DefaultKeyBuilder._make_json_safe` (key_builder.py lines 87-134).
`kenum` carries the member's `.value`; `kbytes` carries the
`decode("utf-8", errors="replace")` text of the byte string; `kmodel`
and `kdataclass` carry the `model_dump()`/`asdict()` field mapping;
`kother` carries the `repr()` fallback text. -/
inductive KVal where
  | knone : KVal
  | kbool : Bool → KVal
  | kint : Int → KVal
  | kstr : String → KVal
  | kdatetime : String → KVal
  | kdate : String → KVal
  | ktime : String → KVal
  | kuuid : String → KVal
  | kdecimal : String → KVal
  | kenum : KVal → KVal
  | kbytes : String → KVal
  | kmodel : List (String × KVal) → KVal
  | kdataclass : List (String × KVal) → KVal
  | klist : List KVal → KVal
  | ktuple : List KVal → KVal
  | kdict : List (String × KVal) → KVal
  | kother : String → KVal

/-- The JSON structure handed to `json.dumps` by `_build_cache_key`
(decorators.py line 89). -/
inductive KJ where
  | jnull : KJ
  | jbool : Bool → KJ
  | jint : Int → KJ
  | jstr : String → KJ
  | jarr : List KJ → KJ
  | jobj : List (String × KJ) → KJ

mutual

/-- Model of `DefaultKeyBuilder._make_json_safe`: recursive reduction of an
argument value to a JSON-encodable structure.  The enum branch of the
source returns `obj.value` unprocessed; on the payloads `json.dumps`
accepts (primitives and plain containers of them) that coincides with
the recursive reduction used here. -/
def makeJsonSafe : KVal → KJ
  | .knone => .jnull
  | .kbool b => .jbool b
  | .kint n => .jint n
  | .kstr s => .jstr s
  | .kdatetime iso => .jstr iso
  | .kdate iso => .jstr iso
  | .ktime iso => .jstr iso
  | .kuuid s => .jstr s
  | .kdecimal s => .jstr s
  | .kenum v => makeJsonSafe v
  | .kbytes s => .jstr s
  | .kmodel fs => .jobj (makeJsonSafeKVs fs)
  | .kdataclass fs => .jobj (makeJsonSafeKVs fs)
  | .klist xs => .jarr (makeJsonSafeList xs)
  | .ktuple xs => .jarr (makeJsonSafeList xs)
  | .kdict kvs => .jobj (makeJsonSafeKVs kvs)
  | .kother rep => .jstr rep

def makeJsonSafeList : List KVal → List KJ
  | [] => []
  | x :: xs => makeJsonSafe x :: makeJsonSafeList xs

def makeJsonSafeKVs : List (String × KVal) → List (String × KJ)
  | [] => []
  | (k, v) :: kvs => (k, makeJsonSafe v) :: makeJsonSafeKVs kvs

end

/-- One hexadecimal digit, lowercase, as produced by `json.dumps`
ASCII escapes. -/
def hexDigit (n : Nat) : Char :=
  if n < 10 then Char.ofNat (48 + n) else Char.ofNat (87 + n)

/-- Four-digit hexadecimal rendering used in `\uXXXX` escapes. -/
def hex4 (n : Nat) : String :=
  String.mk [hexDigit (n / 4096 % 16), hexDigit (n / 256 % 16),
             hexDigit (n / 16 % 16), hexDigit (n % 16)]

/-- Model of `json.dumps` escaping of a single character with the default
`ensure_ascii=True`: printable ASCII passes through, the short escapes
cover quote, backslash and common control characters, everything else
becomes `\uXXXX` (with surrogate pairs beyond the basic plane). -/
def escapeChar (c : Char) : String :=
  if c = '"' then "\\\""
  else if c = '\\' then "\\\\"
  else if c = '\n' then "\\n"
  else if c = '\r' then "\\r"
  else if c = '\t' then "\\t"
  else if c.toNat = 8 then "\\b"
  else if c.toNat = 12 then "\\f"
  else if c.toNat < 32 then "\\u" ++ hex4 c.toNat
  else if c.toNat < 127 then String.singleton c
  else if c.toNat < 65536 then "\\u" ++ hex4 c.toNat
  else
    "\\u" ++ hex4 (55296 + (c.toNat - 65536) / 1024) ++
    "\\u" ++ hex4 (56320 + (c.toNat - 65536) % 1024)

/-- A JSON string literal for `s`. -/
def jsonEscape (s : String) : String :=
  "\"" ++ String.join (s.data.map escapeChar) ++ "\""

/-- Render already-stringified object members `key:value` joined by
commas (`separators=(",", ":")`). -/
def renderPairs (ps : List (String × String)) : String :=
  String.intercalate "," (ps.map fun p => jsonEscape p.1 ++ ":" ++ p.2)

/-- Comparison used for `sort_keys=True`: Python sorts the members by
their key string (code-point lexicographic order, the same order as
Lean's `String` order). -/
def keyLe {α : Type} (a b : String × α) : Prop := a.1 ≤ b.1

instance {α : Type} : DecidableRel (keyLe (α := α)) :=
  fun a b => inferInstanceAs (Decidable (a.1 ≤ b.1))

instance {α : Type} : IsTotal (String × α) keyLe :=
  ⟨fun a b => le_total a.1 b.1⟩

instance {α : Type} : IsTrans (String × α) keyLe :=
  ⟨fun _ _ _ h₁ h₂ => le_trans h₁ h₂⟩

/-- Strict key order; on members with pairwise distinct keys, being
sorted by `keyLe` is the same as being sorted by `keyLt`, and a sorted
arrangement under `keyLt` is unique. -/
def keyLt {α : Type} (a b : String × α) : Prop := a.1 < b.1

instance {α : Type} : IsAntisymm (String × α) keyLt :=
  ⟨fun _ _ h₁ h₂ => absurd h₂ (lt_asymm h₁)⟩

mutual

/-- Model of `json.dumps(json_safe, sort_keys=True, separators=(",", ":"))`
(decorators.py line 89): canonical rendering with sorted keys and no
insignificant whitespace.  Members are rendered first and then sorted
by key; since the sort is stable and compares only keys, this agrees
with Python's sort-then-render. -/
def dumpsCanon : KJ → String
  | .jnull => "null"
  | .jbool true => "true"
  | .jbool false => "false"
  | .jint n => toString n
  | .jstr s => jsonEscape s
  | .jarr xs => "[" ++ String.intercalate "," (dumpsCanonList xs) ++ "]"
  | .jobj kvs =>
    "\x7b" ++ renderPairs (List.insertionSort keyLe (dumpsCanonKVs kvs)) ++ "\x7d"

def dumpsCanonList : List KJ → List String
  | [] => []
  | x :: xs => dumpsCanon x :: dumpsCanonList xs

def dumpsCanonKVs : List (String × KJ) → List (String × String)
  | [] => []
  | (k, v) :: kvs => (k, dumpsCanon v) :: dumpsCanonKVs kvs

end

/-- Default exclusion set applied by `_build_cache_key`
(decorators.py line 81). -/
def defaultExcludedParams : List String :=
  ["request", "response", "db", "session", "self"]

/-- Model of `excluded_params or {"request", ...}`: Python `or` falls back to
the default set when `excluded_params` is `None` or an empty (falsy)
set. -/
def effectiveExcluded : Option (List String) → List String
  | none => defaultExcludedParams
  | some [] => defaultExcludedParams
  | some l => l

/-- Model of `_filtered_kwargs_for_key` after binding: the bound name→value
mapping with excluded names removed (decorators.py lines 54-68).
Binding by `sig.bind_partial(*args, **kwargs)` resolves positional and
keyword arguments to the same mapping, so the bound arguments are
modelled directly as an association list. -/
def filteredForKey (args : List (String × KVal)) (excl : List String) :
    List (String × KVal) :=
  args.filter (fun p => decide (p.1 ∉ excl))

/-- Model of `hashlib.sha256(raw.encode()).hexdigest()` over the canonical dump
(decorators.py lines 88-90).  The hash itself is the external
`hashlib` primitive, abstracted as the function `H`; every theorem
below holds for any `H`, in particular for SHA-256. -/
def argsHash (H : String → String) (filtered : List (String × KVal)) : String :=
  H (dumpsCanon (.jobj (makeJsonSafeKVs filtered)))

/-- Model of `_build_cache_key` (decorators.py lines 71-100).  `kbResult` is the
outcome of the custom `key_builder.build` call when one is supplied
(`Except.error` models it raising).  On success the custom key is
returned verbatim; on failure, and with no custom builder, the default
composition `namespace:key_id:args_hash` is returned. -/
def buildCacheKeyM (H : String → String) (ns : String) (key : Option String)
    (opId : String) (kbResult : Option (Except Unit String))
    (args : List (String × KVal)) (excludedParams : Option (List String)) : String :=
  let filtered := filteredForKey args (effectiveExcluded excludedParams)
  let keyId := key.getD opId
  let hash := argsHash H filtered
  match kbResult with
  | some (Except.ok custom) => custom
  | some (Except.error _) => ns ++ ":" ++ keyId ++ ":" ++ hash
  | none => ns ++ ":" ++ keyId ++ ":" ++ hash

/-! ## Serialization format registry (`serializer.py`) -/

/-- The closed `SerializationFormat` enumeration
(serializer.py lines 29-33). -/
inductive SerFormat where
  | json : SerFormat
  | pickle : SerFormat
  | msgpack : SerFormat
  deriving DecidableEq

/-- Model of `SerializationFormat(s)` for a string `s`: returns the member with
that value, raising `ValueError` for any other string
(the coercion in `register_serializer`, serializer.py line 317). -/
def serFormatOfString (s : String) : Except Unit SerFormat :=
  if s = "json" then .ok .json
  else if s = "pickle" then .ok .pickle
  else if s = "msgpack" then .ok .msgpack
  else .error ()

/-- Registered encode functions: value to bytes. -/
def EncFn : Type := SVal → List Nat

/-- Registered decode functions: bytes to value. -/
def DecFn : Type := List Nat → SVal

/-- The `_SERIALIZERS`/`_DESERIALIZERS` dictionaries
(serializer.py lines 271-282). -/
structure SerRegistry where
  encs : SerFormat → Option EncFn
  decs : SerFormat → Option DecFn

/-- Overwriting dictionary assignment `_SERIALIZERS[format] = ...`. -/
def SerRegistry.insertFns (r : SerRegistry) (f : SerFormat) (e : EncFn) (d : DecFn) :
    SerRegistry :=
  ⟨fun g => if g = f then some e else r.encs g,
   fun g => if g = f then some d else r.decs g⟩

/-- Model of `register_serializer` (serializer.py lines 304-320): a string
identifier is first coerced through the closed enumeration — an
unknown string raises `ValueError` — and then the pair is stored. -/
def registerSerializerM (fmt : String ⊕ SerFormat) (e : EncFn) (d : DecFn)
    (r : SerRegistry) : Except Unit SerRegistry :=
  match fmt with
  | .inl s =>
    match serFormatOfString s with
    | .error _ => .error ()
    | .ok f => .ok (r.insertFns f e d)
  | .inr f => .ok (r.insertFns f e d)

/-- Model of `serialize` (serializer.py lines 323-345): defaulting of the
format, `ValueError` for a format missing from the registry, then the
registered encoder (whose own failures are re-raised as `ValueError`;
encoders are total here). -/
def serializeM (r : SerRegistry) (dflt : SerFormat) (fmt : Option SerFormat)
    (v : SVal) : Except Unit (List Nat) :=
  match r.encs (fmt.getD dflt) with
  | none => .error ()
  | some enc => .ok (enc v)

/-- Model of `deserialize` (serializer.py lines 348-370), mirror of
`serializeM`. -/
def deserializeM (r : SerRegistry) (dflt : SerFormat) (fmt : Option SerFormat)
    (bs : List Nat) : Except Unit SVal :=
  match r.decs (fmt.getD dflt) with
  | none => .error ()
  | some dec => .ok (dec bs)

/-! ## Redis backend (`backend/redis.py`) and the three decorators
(`decorators.py`)

The Redis client's key/value store is a function `String → Option WVal`
(the stored bytes are JSON wire structures, see the module comment);
exceptions raised by the client are injected through the failure
flags.  TTL expiry is wall-clock behaviour outside the model, so the
`ttl` argument carried by the source has no observable effect here. -/

structure RedisB where
  keyPref : String
  store : String → Option WVal
  getFail : String → Bool
  setFail : String → Bool
  delFail : String → Bool
  clearFail : Bool

/-- Model of `RedisCacheBackend._builld_key` (redis.py lines 25-26). -/
def rbKey (b : RedisB) (k : String) : String := b.keyPref ++ ":" ++ k

/-- Model of `RedisCacheBackend.get` (redis.py lines 28-35): `None` when the
key is absent, otherwise `deserialize(raw)`. -/
def rbGet (env : ImportEnv) (b : RedisB) (k : String) : Except Unit (Option SVal) :=
  if b.getFail (rbKey b k) then .error ()
  else .ok ((b.store (rbKey b k)).map (decodeW env))

/-- Model of `RedisCacheBackend.set` (redis.py lines 37-46): serializes the
value and writes the bytes. -/
def rbSet (b : RedisB) (k : String) (v : SVal) : Except Unit RedisB :=
  if b.setFail (rbKey b k) then .error ()
  else .ok { b with
    store := fun x => if x = rbKey b k then some (encodeW v) else b.store x }

/-- Model of `RedisCacheBackend.delete` (redis.py lines 48-50). -/
def rbDelete (b : RedisB) (k : String) : Except Unit RedisB :=
  if b.delFail (rbKey b k) then .error ()
  else .ok { b with
    store := fun x => if x = rbKey b k then none else b.store x }

/-- The `KEYS` pattern used by `clear` (redis.py lines 57-61):
`prefix:namespace:*` with a namespace, `prefix:*` without. -/
def nsPattern (keyPref : String) (ns : Option String) : String :=
  match ns with
  | some s => keyPref ++ ":" ++ s ++ ":"
  | none => keyPref ++ ":"

/-- Model of `RedisCacheBackend.clear` (redis.py lines 52-65): removes every
key matching the pattern. -/
def rbClear (b : RedisB) (ns : Option String) : Except Unit RedisB :=
  if b.clearFail then .error ()
  else .ok { b with
    store := fun x =>
      if (nsPattern b.keyPref ns).isPrefixOf x then none else b.store x }

/-- Result of one wrapped call: the value returned to the caller, the
backend state afterwards, and how many times the wrapped operation was
invoked. -/
structure CallResult where
  result : SVal
  backend : RedisB
  invocations : Nat

/-- Whether the object the decorator receives from `backend.get` `is
None` — true both for an absent entry and for a stored `None`
(`deserialize(b"null")` is `None`). -/
def seesMiss (env : ImportEnv) (b : RedisB) (k : String) : Bool :=
  b.getFail (rbKey b k) ||
    match b.store (rbKey b k) with
    | none => true
    | some w => match decodeW env w with
      | .snull => true
      | _ => false

/-- Value of the `unless` guard for a result: `unless(result)` when a
predicate was supplied, else the default `False` (no skipping). -/
def unlessVal (unl : Option (SVal → Bool)) (result : SVal) : Bool :=
  match unl with
  | some u => u result
  | none => false

/-- The `if cached is not None` test (decorators.py line 152) on the
object received from `backend.get`: an absent entry and a stored
`None` are both Python `None` and drop through to the miss path. -/
def hitCheck : Option SVal → Option SVal
  | none => none
  | some .snull => none
  | some v => some v

/-- The shared miss/store tail of `cacheable` and `cache_put`
(decorators.py lines 155-167 and 196-224): evaluate `unless` on the
result, store unless it skips, swallow `backend.set` failure, return
the result. -/
def missStore (unl : Option (SVal → Bool)) (cacheKey : String) (b : RedisB)
    (f : SVal) : CallResult :=
  if unlessVal unl f then ⟨f, b, 1⟩
  else
    match rbSet b cacheKey f with
    | .error _ => ⟨f, b, 1⟩
    | .ok b' => ⟨f, b', 1⟩

/-- The `try/except` around `backend.get` (decorators.py lines
146-150): a raised exception is logged and leaves `cached = None`. -/
def cachedOf (env : ImportEnv) (b : RedisB) (k : String) : Option SVal :=
  match rbGet env b k with
  | .error _ => none
  | .ok v => v

/-- The `cacheable` wrapper body (decorators.py lines 122-167).
`cond` is the awaited value of the `condition` predicate for this call
(`none` when no predicate was supplied), `unl` the `unless` predicate,
`cacheKey` the derived key, and `f` the value the wrapped coroutine
returns.  `backend.get` failure is caught and leaves `cached = None`;
`backend.set` failure is caught and ignored. -/
def cacheableCall (env : ImportEnv) (cond : Option Bool) (unl : Option (SVal → Bool))
    (cacheKey : String) (b : RedisB) (f : SVal) : CallResult :=
  match cond with
  | some false => ⟨f, b, 1⟩
  | _ =>
    match hitCheck (cachedOf env b cacheKey) with
    | some v => ⟨v, b, 0⟩
    | none => missStore unl cacheKey b f

/-- The `cache_put` wrapper body (decorators.py lines 193-224): the
operation always runs first; `condition` false or `unless` true skip
the store; `backend.set` failure is caught and ignored. -/
def cachePutCall (cond : Option Bool) (unl : Option (SVal → Bool))
    (cacheKey : String) (b : RedisB) (f : SVal) : CallResult :=
  match cond with
  | some false => ⟨f, b, 1⟩
  | _ => missStore unl cacheKey b f

/-- Model of `cache_evict._evict` (decorators.py lines 246-267): with
`all_entries` it clears the namespace; otherwise a missing namespace
raises `ValueError` at call time, else the derived key is deleted. -/
def evictStep (ns : Option String) (allEntries : Bool) (cacheKey : String)
    (b : RedisB) : Except Unit RedisB :=
  if allEntries then rbClear b ns
  else
    match ns with
    | none => .error ()
    | some _ => rbDelete b cacheKey

/-- The `cache_evict` wrapper body (decorators.py lines 270-292):
`condition` false skips eviction but still runs the operation; the
eviction step runs before or after the operation according to
`before_invocation`, and ANY exception it raises — backend failures
and the missing-namespace `ValueError` alike — is caught and logged,
leaving the backend unchanged. -/
def cacheEvictCall (cond : Option Bool) (ns : Option String)
    (allEntries beforeInvocation : Bool) (cacheKey : String) (b : RedisB)
    (f : SVal) : CallResult :=
  match cond with
  | some false => ⟨f, b, 1⟩
  | _ =>
    let b₁ :=
      if beforeInvocation then
        match evictStep ns allEntries cacheKey b with
        | .ok b' => b'
        | .error _ => b
      else b
    let result := f
    let b₂ :=
      if beforeInvocation then b₁
      else
        match evictStep ns allEntries cacheKey b₁ with
        | .ok b' => b'
        | .error _ => b₁
    ⟨result, b₂, 1⟩

/-- The only decoration-time error. -/
inductive DecorationError where
  | notAsync : DecorationError

/-- What `cache_evict`'s decorator body checks at decoration time
(decorators.py lines 243-244): only `_ensure_async(func)`.  The
namespace/all_entries combination is not examined until `_evict` runs
inside a call. -/
def cacheEvictSetup (funcIsAsync : Bool) (ns : Option String) (allEntries : Bool) :
    Except DecorationError Unit :=
  if funcIsAsync then .ok () else .error .notAsync

/-- The value argument the `cacheable`/`cache_put` wrappers pass to
`backend.set` (decorators.py lines 163 and 220): the operation's raw
result object (`Sum.inl`), as opposed to the serialized bytes
(`Sum.inr`) the Serialization Engine would produce from it. -/
def cacheableSetPayload (result : SVal) : SVal ⊕ WVal := Sum.inl result

/-- An import environment in which every class resolves. -/
def envAll : ImportEnv := ⟨fun _ _ => true, fun _ => true, fun _ => true⟩

/-- A healthy backend with an empty store. -/
def rbEmpty : RedisB :=
  ⟨"fastapi-cacheable", fun _ => none, fun _ => false, fun _ => false,
   fun _ => false, false⟩

/-- A backend whose every operation raises. -/
def rbFailing : RedisB :=
  ⟨"fastapi-cacheable", fun _ => none, fun _ => true, fun _ => true,
   fun _ => true, true⟩

/-- A healthy backend holding one serialized entry for the derived key
`users:k:h`. -/
def rbOne : RedisB :=
  ⟨"fastapi-cacheable",
   fun x => if x = "fastapi-cacheable:users:k:h" then some (WVal.wint 9) else none,
   fun _ => false, fun _ => false, fun _ => false, false⟩

/-- Model of `rbEmpty` after a successful `set` of `7` under `users:k:h` — the
state `rbSet` produces. -/
def rbStored : RedisB :=
  { rbEmpty with
    store := fun x =>
      if x = rbKey rbEmpty "users:k:h" then some (encodeW (.sint 7))
      else rbEmpty.store x }

/-- An empty serializer registry. -/
def regEmpty : SerRegistry := ⟨fun _ => none, fun _ => none⟩

/-- A trivial encoder used to exercise the registry. -/
def encNil : EncFn := fun _ => []

/-- A trivial decoder used to exercise the registry. -/
def decNull : DecFn := fun _ => SVal.snull


/-! ## Supporting lemmas -/

theorem latin1_toNat_ofNat {b : Nat} (h : b < 256) : (Char.ofNat b).toNat = b := by
  have hv : b.isValidChar := Or.inl (by omega)
  rw [Char.ofNat, dif_pos hv]
  simp [Char.ofNatAux, Char.toNat, UInt32.toNat]

theorem latin1_roundtrip {bs : List Nat} (h : bs.all (fun b => decide (b < 256)) = true) :
    latin1Encode (latin1Decode bs) = bs := by
  induction bs with
  | nil => rfl
  | cons b tl ih =>
    simp only [List.all_cons, Bool.and_eq_true, decide_eq_true_eq] at h
    simp only [latin1Decode, latin1Encode, List.map_cons] at *
    exact congrArg₂ List.cons (latin1_toNat_ofNat h.1) (ih h.2)

theorem roundHalfEven_sub_abs_le (q : Rat) : |(roundHalfEven q : Rat) - q| ≤ 1 / 2 := by
  have h0 : (⌊q⌋ : Rat) ≤ q := Int.floor_le q
  have h1 : q < ⌊q⌋ + 1 := Int.lt_floor_add_one q
  unfold roundHalfEven
  split_ifs with hlt hgt hev
  · rw [abs_sub_comm, abs_of_nonneg (by linarith)]
    linarith
  · push_cast
    rw [abs_of_nonneg (by linarith)]
    linarith
  · rw [abs_sub_comm, abs_of_nonneg (by linarith)]
    linarith
  · push_cast
    rw [abs_of_nonneg (by linarith)]
    linarith

theorem roundHalfEven_eq_of_abs_lt {q : Rat} {n : Int} (h : |q - (n : Rat)| < 1 / 2) :
    roundHalfEven q = n := by
  rw [abs_sub_lt_iff] at h
  obtain ⟨h₁, h₂⟩ := h
  rcases le_or_lt (n : Rat) q with hge | hlt
  · have hfl : ⌊q⌋ = n := by
      rw [Int.floor_eq_iff]
      exact ⟨hge, by push_cast; linarith⟩
    unfold roundHalfEven
    rw [hfl, if_pos (by linarith)]
  · have hfl : ⌊q⌋ = n - 1 := by
      rw [Int.floor_eq_iff]
      push_cast
      constructor <;> linarith
    have hfrac : (1 : Rat) / 2 < q - ((n - 1 : Int) : Rat) := by push_cast; linarith
    unfold roundHalfEven
    rw [hfl, if_neg (by push_cast at hfrac ⊢; linarith), if_pos hfrac]
    omega

theorem roundToDouble_rel_err (q : Rat) : |roundToDouble q - q| ≤ |q| / 2 ^ 53 := by
  unfold roundToDouble
  split_ifs with hq
  · subst hq; simp
  · set e : Int := Int.log 2 |q| - 52 with he
    have h2e : (0 : Rat) < 2 ^ e := by positivity
    have hx := roundHalfEven_sub_abs_le (q / 2 ^ e)
    have hstep : |(roundHalfEven (q / 2 ^ e) : Rat) * 2 ^ e - q| ≤ 2 ^ e / 2 := by
      have hdec : (roundHalfEven (q / 2 ^ e) : Rat) * 2 ^ e - q
          = ((roundHalfEven (q / 2 ^ e) : Rat) - q / 2 ^ e) * 2 ^ e := by
        field_simp
      rw [hdec, abs_mul, abs_of_pos h2e]
      calc |(roundHalfEven (q / 2 ^ e) : Rat) - q / 2 ^ e| * 2 ^ e
          ≤ 1 / 2 * 2 ^ e := mul_le_mul_of_nonneg_right hx h2e.le
        _ = 2 ^ e / 2 := by ring
    refine hstep.trans ?_
    have hlog : (2 : Rat) ^ Int.log 2 |q| ≤ |q| :=
      Int.zpow_log_le_self (by norm_num) (abs_pos.mpr hq)
    have hfin : (2 : Rat) ^ e / 2 ≤ |q| / 2 ^ 53 := by
      rw [he, zpow_sub₀ (by norm_num : (2 : Rat) ≠ 0), div_div]
      rw [div_le_div_iff (by positivity) (by positivity)]
      calc (2 : Rat) ^ Int.log 2 |q| * 2 ^ 53
          ≤ |q| * 2 ^ 53 := mul_le_mul_of_nonneg_right hlog (by positivity)
        _ = |q| * ((2 : Rat) ^ (52 : Int) * 2) := by norm_num
    exact hfin

theorem ratTrunc_sub_abs_lt (q : Rat) : |q - (ratTrunc q : Rat)| < 1 := by
  unfold ratTrunc
  split_ifs with h
  · rw [abs_of_nonneg (sub_nonneg.mpr (Int.floor_le q))]
    linarith [Int.lt_floor_add_one q]
  · rw [abs_of_nonpos (sub_nonpos.mpr (Int.le_ceil q))]
    linarith [Int.ceil_lt_add_one q]

theorem tdFromSeconds_totalSeconds {us : Int} (h : us.natAbs ≤ 2 ^ 51) :
    tdFromSeconds (totalSeconds us) = us := by
  have habs : |(us : Rat)| ≤ 2 ^ 51 := by
    rw [← Int.cast_abs]
    have h' : |us| ≤ (2 : Int) ^ 51 := by
      rw [Int.abs_eq_natAbs]
      exact_mod_cast h
    exact_mod_cast h'
  set q : Rat := (us : Rat) / 1000000 with hqdef
  set f : Rat := totalSeconds us with hfdef
  have hd1 : |f - q| ≤ |q| / 2 ^ 53 := roundToDouble_rel_err q
  have herr1 : |f * 1000000 - (us : Rat)| ≤ 1 / 4 := by
    have hexp : f * 1000000 - (us : Rat) = (f - q) * 1000000 := by
      rw [hqdef]
      field_simp
    rw [hexp, abs_mul, abs_of_pos (by norm_num : (0 : Rat) < 1000000)]
    have hqa : |q| = |(us : Rat)| / 1000000 := by
      rw [hqdef, abs_div, abs_of_pos (by norm_num : (0 : Rat) < 1000000)]
    calc |f - q| * 1000000 ≤ |q| / 2 ^ 53 * 1000000 :=
          mul_le_mul_of_nonneg_right hd1 (by norm_num)
      _ = |(us : Rat)| / 2 ^ 53 := by rw [hqa]; ring
      _ ≤ (2 : Rat) ^ 51 / 2 ^ 53 := by
          exact (div_le_div_right (by positivity)).mpr habs
      _ = 1 / 4 := by norm_num
  set t : Int := ratTrunc f with htdef
  set garg : Rat := (f - t) * 1000000 with hgdef
  have htr : |f - (t : Rat)| < 1 := ratTrunc_sub_abs_lt f
  have hgabs : |garg| < 1000000 := by
    rw [hgdef, abs_mul, abs_of_pos (by norm_num : (0 : Rat) < 1000000)]
    have := mul_lt_mul_of_pos_right htr (show (0 : Rat) < 1000000 by norm_num)
    simpa using this
  have hd2 : |roundToDouble garg - garg| ≤ 1 / 8 := by
    refine (roundToDouble_rel_err garg).trans ?_
    have hstep : |garg| / 2 ^ 53 ≤ 1000000 / 2 ^ 53 :=
      (div_le_div_right (by positivity)).mpr hgabs.le
    refine hstep.trans ?_
    norm_num
  have hkey : |roundToDouble garg - ((us : Rat) - (t : Rat) * 1000000)| < 1 / 2 := by
    have hdecomp : roundToDouble garg - ((us : Rat) - (t : Rat) * 1000000)
        = (roundToDouble garg - garg) + (f * 1000000 - (us : Rat)) := by
      rw [hgdef]
      ring
    rw [hdecomp]
    calc |(roundToDouble garg - garg) + (f * 1000000 - (us : Rat))|
        ≤ |roundToDouble garg - garg| + |f * 1000000 - (us : Rat)| := abs_add _ _
      _ ≤ 1 / 8 + 1 / 4 := add_le_add hd2 herr1
      _ < 1 / 2 := by norm_num
  have hrhe : roundHalfEven (roundToDouble garg) = us - t * 1000000 := by
    apply roundHalfEven_eq_of_abs_lt
    push_cast
    exact hkey
  unfold tdFromSeconds
  rw [← htdef, ← hgdef, hrhe]
  ring

theorem lookupKV_no_tag {kvs : List (String × SVal)} (h : noTypeKey kvs = true) :
    lookupKV kvs "__type__" = none := by
  unfold lookupKV
  rw [List.find?_eq_none.mpr]
  · rfl
  · intro p hp
    have := (List.all_eq_true.mp h) p hp
    simpa using this

theorem hookTag_no_tag (env : ImportEnv) {kvs : List (String × SVal)}
    (h : noTypeKey kvs = true) : hookTag env kvs = .sdict kvs := by
  unfold hookTag
  rw [lookupKV_no_tag h]

mutual

theorem roundtripW (env : ImportEnv) (v : SVal) (h : wfS env v = true) :
    decodeW env (encodeW v) = v := by
  cases v with
  | snull => rfl
  | sbool b => rfl
  | sint n => rfl
  | sfloat q => rfl
  | sstr s => rfl
  | sdatetime iso => rfl
  | sdate iso => rfl
  | stime iso => rfl
  | stimedelta us =>
    simp only [wfS, decide_eq_true_eq] at h
    show SVal.stimedelta (tdFromSeconds (totalSeconds us)) = SVal.stimedelta us
    rw [tdFromSeconds_totalSeconds h]
  | suuid s => rfl
  | sdecimal s => rfl
  | senum m n v =>
    simp only [wfS, Bool.and_eq_true] at h
    show (if env.enumOk m n then SVal.senum m n (decodeW env (encodeW v))
          else decodeW env (encodeW v)) = SVal.senum m n v
    rw [if_pos h.1, roundtripW env v h.2]
  | sbytes bs =>
    simp only [wfS] at h
    show SVal.sbytes (latin1Encode (latin1Decode bs)) = SVal.sbytes bs
    rw [latin1_roundtrip h]
  | sset xs =>
    simp only [wfS, Bool.and_eq_true] at h
    show SVal.sset (decodeWList env (encodeWList xs)) = SVal.sset xs
    rw [roundtripWList env xs h.2]
  | sfrozenset xs =>
    simp only [wfS, Bool.and_eq_true] at h
    show SVal.sfrozenset (decodeWList env (encodeWList xs)) = SVal.sfrozenset xs
    rw [roundtripWList env xs h.2]
  | spydantic p fs =>
    simp only [wfS, Bool.and_eq_true] at h
    have hfs : decodeW env (.wobj (encodeWKVs fs)) = .sdict fs := by
      show hookTag env (decodeWKVs env (encodeWKVs fs)) = SVal.sdict fs
      rw [roundtripWKVs env fs h.2.2, hookTag_no_tag env h.2.1]
    show hookTag env [("__type__", .sstr "pydantic"), ("model", .sstr p),
          ("value", decodeW env (.wobj (encodeWKVs fs)))] = SVal.spydantic p fs
    rw [hfs]
    show (if env.modelOk p then SVal.spydantic p fs else SVal.sdict fs) = SVal.spydantic p fs
    rw [if_pos h.1]
  | sdataclass p fs =>
    simp only [wfS, Bool.and_eq_true] at h
    have hfs : decodeW env (.wobj (encodeWKVs fs)) = .sdict fs := by
      show hookTag env (decodeWKVs env (encodeWKVs fs)) = SVal.sdict fs
      rw [roundtripWKVs env fs h.2.2, hookTag_no_tag env h.2.1]
    show hookTag env [("__type__", .sstr "dataclass"), ("class", .sstr p),
          ("value", decodeW env (.wobj (encodeWKVs fs)))] = SVal.sdataclass p fs
    rw [hfs]
    show (if env.dataclassOk p then SVal.sdataclass p fs else SVal.sdict fs) = SVal.sdataclass p fs
    rw [if_pos h.1]
  | slist xs =>
    simp only [wfS] at h
    show SVal.slist (decodeWList env (encodeWList xs)) = SVal.slist xs
    rw [roundtripWList env xs h]
  | sdict kvs =>
    simp only [wfS, Bool.and_eq_true] at h
    show hookTag env (decodeWKVs env (encodeWKVs kvs)) = SVal.sdict kvs
    rw [roundtripWKVs env kvs h.2, hookTag_no_tag env h.1]

theorem roundtripWList (env : ImportEnv) (xs : List SVal) (h : wfSList env xs = true) :
    decodeWList env (encodeWList xs) = xs := by
  cases xs with
  | nil => rfl
  | cons x tl =>
    simp only [wfSList, Bool.and_eq_true] at h
    simp only [encodeWList, decodeWList]
    rw [roundtripW env x h.1, roundtripWList env tl h.2]

theorem roundtripWKVs (env : ImportEnv) (kvs : List (String × SVal))
    (h : wfSKVs env kvs = true) : decodeWKVs env (encodeWKVs kvs) = kvs := by
  cases kvs with
  | nil => rfl
  | cons kv tl =>
    obtain ⟨k, v⟩ := kv
    simp only [wfSKVs, Bool.and_eq_true] at h
    simp only [encodeWKVs, decodeWKVs]
    rw [roundtripW env v h.1, roundtripWKVs env tl h.2]

end

theorem insertionSort_keyLe_eq_of_perm {α : Type} {l₁ l₂ : List (String × α)}
    (hp : l₁.Perm l₂) (hnd : (l₁.map Prod.fst).Nodup) :
    List.insertionSort keyLe l₁ = List.insertionSort keyLe l₂ := by
  have hp₁ : (List.insertionSort keyLe l₁).Perm l₁ := List.perm_insertionSort keyLe l₁
  have hp₂ : (List.insertionSort keyLe l₂).Perm l₂ := List.perm_insertionSort keyLe l₂
  have hperm : (List.insertionSort keyLe l₁).Perm (List.insertionSort keyLe l₂) :=
    hp₁.trans (hp.trans hp₂.symm)
  have hnd₂ : (l₂.map Prod.fst).Nodup := ((hp.map Prod.fst).nodup_iff).mp hnd
  have sortedLt : ∀ (l : List (String × α)), (l.map Prod.fst).Nodup →
      List.Sorted keyLt (List.insertionSort keyLe l) := by
    intro l hl
    have hps : (List.insertionSort keyLe l).Perm l := List.perm_insertionSort keyLe l
    have hnds : ((List.insertionSort keyLe l).map Prod.fst).Nodup :=
      ((hps.map Prod.fst).nodup_iff).mpr hl
    have hne : List.Pairwise (fun a b : String × α => a.1 ≠ b.1)
        (List.insertionSort keyLe l) := List.pairwise_map.mp hnds
    have hle : List.Pairwise keyLe (List.insertionSort keyLe l) :=
      List.sorted_insertionSort keyLe l
    exact List.Pairwise.imp₂ (fun _ _ h₁ h₂ => lt_of_le_of_ne h₁ h₂) hle hne
  exact List.eq_of_perm_of_sorted hperm (sortedLt l₁ hnd) (sortedLt l₂ hnd₂)

theorem makeJsonSafeKVs_eq_map (l : List (String × KVal)) :
    makeJsonSafeKVs l = l.map (fun p => (p.1, makeJsonSafe p.2)) := by
  induction l with
  | nil => rfl
  | cons p tl ih =>
    obtain ⟨k, v⟩ := p
    simp [makeJsonSafeKVs, ih]

theorem dumpsCanonKVs_eq_map (l : List (String × KJ)) :
    dumpsCanonKVs l = l.map (fun p => (p.1, dumpsCanon p.2)) := by
  induction l with
  | nil => rfl
  | cons p tl ih =>
    obtain ⟨k, v⟩ := p
    simp [dumpsCanonKVs, ih]

theorem dumpsCanon_jobj_perm {l₁ l₂ : List (String × KJ)}
    (hp : l₁.Perm l₂) (hnd : (l₁.map Prod.fst).Nodup) :
    dumpsCanon (.jobj l₁) = dumpsCanon (.jobj l₂) := by
  show "\x7b" ++ renderPairs (List.insertionSort keyLe (dumpsCanonKVs l₁)) ++ "\x7d" = _
  have hpm : (dumpsCanonKVs l₁).Perm (dumpsCanonKVs l₂) := by
    rw [dumpsCanonKVs_eq_map, dumpsCanonKVs_eq_map]
    exact hp.map _
  have hndm : ((dumpsCanonKVs l₁).map Prod.fst).Nodup := by
    rw [dumpsCanonKVs_eq_map, List.map_map]
    exact hnd
  rw [insertionSort_keyLe_eq_of_perm hpm hndm]
  rfl

theorem missStore_spec (unl : Option (SVal → Bool)) (k : String) (b : RedisB) (f : SVal) :
    (missStore unl k b f).result = f ∧ (missStore unl k b f).invocations = 1 := by
  unfold missStore
  split
  · exact ⟨rfl, rfl⟩
  · split <;> exact ⟨rfl, rfl⟩

theorem missStore_setFail {b : RedisB} {k : String} (unl : Option (SVal → Bool))
    (f : SVal) (h : b.setFail (rbKey b k) = true) : missStore unl k b f = ⟨f, b, 1⟩ := by
  simp [missStore, rbSet, h]

theorem missStore_stores {b : RedisB} {k : String} {unl : Option (SVal → Bool)}
    {f : SVal} (hu : unlessVal unl f = false) (hs : b.setFail (rbKey b k) = false) :
    (missStore unl k b f).backend.store (rbKey b k) = some (encodeW f) ∧
    (missStore unl k b f).backend.keyPref = b.keyPref ∧
    (missStore unl k b f).backend.getFail = b.getFail ∧
    (missStore unl k b f).backend.setFail = b.setFail := by
  simp [missStore, rbSet, hu, hs]

theorem hitCheck_of_seesMiss (env : ImportEnv) (b : RedisB) (k : String)
    (h : seesMiss env b k = true) :
    hitCheck (cachedOf env b k) = none := by
  unfold seesMiss at h
  unfold cachedOf rbGet
  cases hg : b.getFail (rbKey b k) with
  | true => simp [hg, hitCheck]
  | false =>
    rw [hg] at h
    simp only [Bool.false_or] at h
    simp only [hg, Bool.false_eq_true, if_false]
    cases hs : b.store (rbKey b k) with
    | none => simp [hs, hitCheck]
    | some w =>
      have h' : (match decodeW env w with | SVal.snull => true | _ => false) = true := by
        rw [hs] at h; exact h
      simp only [Option.map_some']
      cases hd : decodeW env w <;> rw [hd] at h' <;>
        first | rfl | exact Bool.noConfusion h' 

theorem evictStep_error_cases {ns : Option String} {allE : Bool} {k : String}
    {b : RedisB}
    (h : (allE = true ∧ b.clearFail = true) ∨ (allE = false ∧ ns = none) ∨
      (allE = false ∧ b.delFail (rbKey b k) = true)) :
    evictStep ns allE k b = .error () := by
  rcases h with ⟨ha, hc⟩ | ⟨ha, hn⟩ | ⟨ha, hd⟩ <;> subst ha
  · simp [evictStep, rbClear, hc]
  · subst hn; rfl
  · cases ns with
    | none => rfl
    | some s => simp [evictStep, rbDelete, hd]

theorem hitCheck_some_ne_null {u : SVal} (h : u ≠ .snull) :
    hitCheck (some u) = some u := by
  cases u <;> first | exact absurd rfl h | rfl

theorem cacheEvictCall_of_evict_error {ns : Option String} {allE : Bool} {k : String}
    {b : RedisB} (cond : Option Bool) (beforeInv : Bool) (f : SVal)
    (h : evictStep ns allE k b = .error ()) :
    cacheEvictCall cond ns allE beforeInv k b f = ⟨f, b, 1⟩ := by
  cases cond with
  | none => cases beforeInv <;> simp [cacheEvictCall, h]
  | some c =>
    cases c
    · rfl
    · cases beforeInv <;> simp [cacheEvictCall, h]

/-! ## Claims -/

/-- C1: Key determinism — for a fixed namespace, identifier and
exclusion set, two invocations of `_build_cache_key` whose filtered
argument mappings hold the same name→value bindings (in any order,
e.g. keyword arguments given out of order) produce the identical key,
and that key is the string
`namespace:(explicit key or operation identity):H(canonical JSON of
the filtered arguments)` where `H` is hex SHA-256 (abstracted). -/
theorem C1_key_determinism (H : String → String) (ns : String) (key : Option String)
    (opId : String) (ep : Option (List String)) (args₁ args₂ : List (String × KVal))
    (hperm : (filteredForKey args₁ (effectiveExcluded ep)).Perm
      (filteredForKey args₂ (effectiveExcluded ep)))
    (hnd : ((filteredForKey args₁ (effectiveExcluded ep)).map Prod.fst).Nodup) :
    buildCacheKeyM H ns key opId none args₁ ep =
      buildCacheKeyM H ns key opId none args₂ ep ∧
    buildCacheKeyM H ns key opId none args₁ ep =
      ns ++ ":" ++ key.getD opId ++ ":" ++
        argsHash H (filteredForKey args₁ (effectiveExcluded ep)) := by
  constructor
  · have hhash : argsHash H (filteredForKey args₁ (effectiveExcluded ep)) =
        argsHash H (filteredForKey args₂ (effectiveExcluded ep)) := by
      unfold argsHash
      congr 1
      apply dumpsCanon_jobj_perm
      · rw [makeJsonSafeKVs_eq_map, makeJsonSafeKVs_eq_map]
        exact hperm.map _
      · rw [makeJsonSafeKVs_eq_map, List.map_map]
        simpa [Function.comp] using hnd
    show ns ++ ":" ++ key.getD opId ++ ":" ++
        argsHash H (filteredForKey args₁ (effectiveExcluded ep)) =
      ns ++ ":" ++ key.getD opId ++ ":" ++
        argsHash H (filteredForKey args₂ (effectiveExcluded ep))
    rw [hhash]
  · rfl

/-- Witness for C1 at concrete out-of-order keyword arguments. -/
theorem C1_key_determinism_witness :
    (filteredForKey [("a", KVal.kint 1), ("b", KVal.kstr "x")]
      (effectiveExcluded none)).Perm
      (filteredForKey [("b", KVal.kstr "x"), ("a", KVal.kint 1)]
        (effectiveExcluded none)) ∧
    ((filteredForKey [("a", KVal.kint 1), ("b", KVal.kstr "x")]
      (effectiveExcluded none)).map Prod.fst).Nodup ∧
    buildCacheKeyM (fun s => s) "users" none "api.get_user" none
        [("a", KVal.kint 1), ("b", KVal.kstr "x")] none =
      buildCacheKeyM (fun s => s) "users" none "api.get_user" none
        [("b", KVal.kstr "x"), ("a", KVal.kint 1)] none := by
  have hperm : (filteredForKey [("a", KVal.kint 1), ("b", KVal.kstr "x")]
      (effectiveExcluded none)).Perm
      (filteredForKey [("b", KVal.kstr "x"), ("a", KVal.kint 1)]
        (effectiveExcluded none)) := by
    show List.Perm [("a", KVal.kint 1), ("b", KVal.kstr "x")]
      [("b", KVal.kstr "x"), ("a", KVal.kint 1)]
    exact List.Perm.swap _ _ _
  have hnd : ((filteredForKey [("a", KVal.kint 1), ("b", KVal.kstr "x")]
      (effectiveExcluded none)).map Prod.fst).Nodup := by
    show (["a", "b"] : List String).Nodup
    decide
  exact ⟨hperm, hnd,
    (C1_key_determinism (fun s => s) "users" none "api.get_user" none
      [("a", KVal.kint 1), ("b", KVal.kstr "x")]
      [("b", KVal.kstr "x"), ("a", KVal.kint 1)] hperm hnd).1⟩

/-- C7: Custom key-strategy resilience — a supplied custom strategy's
returned string is used verbatim as the cache key, overriding the
default composition; when the strategy raises, the key falls back to
the default composition `namespace:key_id:hash` (the key builder is
total, so the wrapped call is never aborted by the strategy). -/
theorem C7_custom_key_strategy (H : String → String) (ns : String)
    (key : Option String) (opId : String) (args : List (String × KVal))
    (ep : Option (List String)) (s : String) (e : Unit) :
    buildCacheKeyM H ns key opId (some (Except.ok s)) args ep = s ∧
    buildCacheKeyM H ns key opId (some (Except.error e)) args ep =
      ns ++ ":" ++ key.getD opId ++ ":" ++
        argsHash H (filteredForKey args (effectiveExcluded ep)) ∧
    buildCacheKeyM H ns key opId none args ep =
      ns ++ ":" ++ key.getD opId ++ ":" ++
        argsHash H (filteredForKey args (effectiveExcluded ep)) :=
  ⟨rfl, rfl, rfl⟩

/-- C10: For the shared `_build_cache_key` (used by all three
decorators) an empty `excluded_params` set is treated the same as an
absent one — the default exclusion set
`{request, response, db, session, self}` is applied in both cases —
and an argument bound to a name in the default set never influences
the derived key. -/
theorem C10_excluded_params_default (H : String → String) (ns : String)
    (key : Option String) (opId : String) (kb : Option (Except Unit String))
    (args : List (String × KVal)) (name : String) (v : KVal) :
    effectiveExcluded (some []) = defaultExcludedParams ∧
    effectiveExcluded none = defaultExcludedParams ∧
    buildCacheKeyM H ns key opId kb args (some []) =
      buildCacheKeyM H ns key opId kb args none ∧
    (name ∈ defaultExcludedParams →
      buildCacheKeyM H ns key opId kb ((name, v) :: args) none =
        buildCacheKeyM H ns key opId kb args none) := by
  refine ⟨rfl, rfl, rfl, fun hmem => ?_⟩
  have hmem' : name ∈ effectiveExcluded none := hmem
  have hfil : filteredForKey ((name, v) :: args) (effectiveExcluded none) =
      filteredForKey args (effectiveExcluded none) := by
    simp [filteredForKey, List.filter_cons, hmem']
  simp only [buildCacheKeyM, hfil]

/-- Witness for C10: varying a `request` argument does not change the
key. -/
theorem C10_excluded_params_default_witness :
    "request" ∈ defaultExcludedParams ∧
    buildCacheKeyM (fun s => s) "users" none "api.get_user" none
        [("request", KVal.kother "Request"), ("a", KVal.kint 1)] none =
      buildCacheKeyM (fun s => s) "users" none "api.get_user" none
        [("a", KVal.kint 1)] none :=
  ⟨by decide,
    (C10_excluded_params_default (fun s => s) "users" none "api.get_user" none
      [("a", KVal.kint 1)] "request" (KVal.kother "Request")).2.2.2 (by decide)⟩

/-- C2 (counterexample): the round-trip law fails as stated — a plain
mapping that happens to use the reserved `"__type__"` key is
reinterpreted by `_json_object_hook`, so `deserialize(serialize(v))`
returns a `date` object instead of the original mapping. -/
theorem C2_roundtrip_counterexample :
    decodeW envAll
      (encodeW (.sdict [("__type__", .sstr "date"), ("value", .sstr "2024-01-02")])) ≠
      SVal.sdict [("__type__", .sstr "date"), ("value", .sstr "2024-01-02")] := by
  intro h
  have h' : SVal.sdate "2024-01-02" =
      SVal.sdict [("__type__", .sstr "date"), ("value", .sstr "2024-01-02")] := h
  exact SVal.noConfusion h'

/-- C2 (amended): for every supported rich type and nested structure
that is well formed — mappings never use the reserved `"__type__"`
key, byte values fit in a byte, set members are hashable, the
referenced enum/model/dataclass classes are importable, and
timedeltas stay within `2^51` microseconds (about 71 years; beyond
roughly `2^52` microseconds the double produced by `total_seconds()`
loses microsecond precision and the round trip genuinely fails, as
the explicit 53-bit rounding in the model shows) —
`deserialize(serialize(v))` reconstructs `v`, at the level of the
tagged JSON structure shared by the `json` format and the `msgpack`
format (which packs exactly that structure through any faithful
binary codec); the native-binary `pickle` format delegates the round
trip wholly to the external `pickle` library and is outside the
model. -/
theorem C2_serializer_roundtrip (env : ImportEnv) (v : SVal) (h : wfS env v = true) :
    decodeW env (encodeW v) = v ∧
    ∀ (packb : WVal → List Nat) (unpackb : List Nat → WVal),
      (∀ w, unpackb (packb w) = w) →
      decodeW env (unpackb (packb (encodeW v))) = v := by
  refine ⟨roundtripW env v h, fun packb unpackb hinv => ?_⟩
  rw [hinv]
  exact roundtripW env v h

/-- Witness for C2 on a nested structure mixing primitives,
sequences, mappings and every rich type. -/
theorem C2_serializer_roundtrip_witness :
    wfS envAll (SVal.sdict
      [("a", .sset [.sint 1, .sbool true]),
       ("dt", .sdatetime "2024-01-02T03:04:05+00:00"),
       ("d", .sdate "2024-01-02"), ("t", .stime "03:04:05"),
       ("xs", .slist
         [.sbytes [0, 255], .stimedelta 90061000001, .sdecimal "1.50",
          .senum "app.models" "Color" (.sint 2),
          .suuid "12345678-1234-5678-1234-567812345678",
          .sfrozenset [.sstr "x"], .sfloat (5 / 2),
          .spydantic "app.models.User" [("id", .sint 7), ("name", .sstr "ann")],
          .sdataclass "app.models.Point" [("x", .sint 1), ("y", .snull)]])]) = true ∧
    decodeW envAll (encodeW (SVal.sdict
      [("a", .sset [.sint 1, .sbool true]),
       ("dt", .sdatetime "2024-01-02T03:04:05+00:00"),
       ("d", .sdate "2024-01-02"), ("t", .stime "03:04:05"),
       ("xs", .slist
         [.sbytes [0, 255], .stimedelta 90061000001, .sdecimal "1.50",
          .senum "app.models" "Color" (.sint 2),
          .suuid "12345678-1234-5678-1234-567812345678",
          .sfrozenset [.sstr "x"], .sfloat (5 / 2),
          .spydantic "app.models.User" [("id", .sint 7), ("name", .sstr "ann")],
          .sdataclass "app.models.Point" [("x", .sint 1), ("y", .snull)]])])) =
      SVal.sdict
      [("a", .sset [.sint 1, .sbool true]),
       ("dt", .sdatetime "2024-01-02T03:04:05+00:00"),
       ("d", .sdate "2024-01-02"), ("t", .stime "03:04:05"),
       ("xs", .slist
         [.sbytes [0, 255], .stimedelta 90061000001, .sdecimal "1.50",
          .senum "app.models" "Color" (.sint 2),
          .suuid "12345678-1234-5678-1234-567812345678",
          .sfrozenset [.sstr "x"], .sfloat (5 / 2),
          .spydantic "app.models.User" [("id", .sint 7), ("name", .sstr "ann")],
          .sdataclass "app.models.Point" [("x", .sint 1), ("y", .snull)]])] :=
  ⟨by rfl, (C2_serializer_roundtrip envAll _ (by rfl)).1⟩

/-- C4 (counterexample): configuring `cache_evict` for single-key
eviction (`all_entries=False`) without a namespace is NOT reported at
decoration time — decoration only checks that the function is
asynchronous — and the first wrapped call still executes and returns
normally, the `ValueError` raised inside the eviction step being
caught and logged like any eviction failure. -/
theorem C4_no_decoration_error :
    cacheEvictSetup true none false = .ok () ∧
    (cacheEvictCall none none false false "users:k:h" rbEmpty (.sint 3)).result =
      .sint 3 ∧
    (cacheEvictCall none none false false "users:k:h" rbEmpty
      (.sint 3)).invocations = 1 :=
  ⟨rfl, rfl, rfl⟩

/-- C4 (amended): `cache_evict` with `all_entries=False` and no
namespace passes decoration (only the async check runs there); each
wrapped call then raises `ValueError` inside `_evict`, which the
wrapper catches and logs, so the wrapped operation executes once, its
result is returned, and the backend is left untouched. -/
theorem C4_missing_namespace_call_time (cond : Option Bool) (beforeInv : Bool)
    (k : String) (b : RedisB) (f : SVal) :
    cacheEvictSetup true none false = .ok () ∧
    evictStep none false k b = .error () ∧
    cacheEvictCall cond none false beforeInv k b f = ⟨f, b, 1⟩ :=
  ⟨rfl, rfl, cacheEvictCall_of_evict_error cond beforeInv f rfl⟩

/-- C5 (counterexample): the value the `cacheable` wrapper passes to
`backend.set` is the operation's raw result object (`Sum.inl`), not
the bytes the Serialization Engine produces from it (`Sum.inr`). -/
theorem C5_raw_value_to_backend :
    cacheableSetPayload (.sint 7) ≠ Sum.inr (encodeW (.sint 7)) := by
  intro h
  exact Sum.noConfusion h

/-- C5 (amended): the interception engine exchanges raw values with
the backend interface; serialization to and from bytes happens inside
the Redis backend: a successful `set` stores the serializer's bytes
for the value it received, `get` returns the decoded value of the
stored bytes, and a `cacheable` LOOKUP hit returns exactly that
decoded value without invoking the operation. -/
theorem C5_backend_serializes (env : ImportEnv) (cond : Option Bool)
    (unl : Option (SVal → Bool)) (k : String) (b b' : RedisB) (v f : SVal)
    (w : WVal) :
    (rbSet b k v = .ok b' → b'.store (rbKey b k) = some (encodeW v)) ∧
    (b.getFail (rbKey b k) = false →
      rbGet env b k = .ok ((b.store (rbKey b k)).map (decodeW env))) ∧
    (cond ≠ some false → b.getFail (rbKey b k) = false →
      b.store (rbKey b k) = some w → decodeW env w ≠ .snull →
      (cacheableCall env cond unl k b f).result = decodeW env w ∧
      (cacheableCall env cond unl k b f).invocations = 0) := by
  refine ⟨?_, fun hg => ?_, fun hc hg hw hd => ?_⟩
  · intro h
    unfold rbSet at h
    split at h
    · exact Except.noConfusion h
    · injection h with h
      rw [← h]
      simp
  · simp [rbGet, hg]
  · have hcached : cachedOf env b k = some (decodeW env w) := by
      simp [cachedOf, rbGet, hg, hw]
    have hhit : hitCheck (cachedOf env b k) = some (decodeW env w) := by
      rw [hcached]
      exact hitCheck_some_ne_null hd
    cases cond with
    | none => simp [cacheableCall, hhit]
    | some c =>
      cases c
      · exact absurd rfl hc
      · simp [cacheableCall, hhit]

/-- Witness for C5's amended statement on concrete backends. -/
theorem C5_backend_serializes_witness :
    rbStored.store (rbKey rbEmpty "users:k:h") = some (encodeW (.sint 7)) ∧
    rbGet envAll rbOne "users:k:h" = .ok (some (.sint 9)) ∧
    (cacheableCall envAll none none "users:k:h" rbOne (.sint 0)).result = .sint 9 ∧
    (cacheableCall envAll none none "users:k:h" rbOne (.sint 0)).invocations = 0 := by
  refine ⟨?_, ?_, ?_, ?_⟩
  · exact (C5_backend_serializes envAll none none "users:k:h" rbEmpty rbStored
      (.sint 7) (.sint 0) (WVal.wint 9)).1 rfl
  · exact (C5_backend_serializes envAll none none "users:k:h" rbOne rbStored
      (.sint 7) (.sint 0) (WVal.wint 9)).2.1 rfl
  · exact ((C5_backend_serializes envAll none none "users:k:h" rbOne rbStored
      (.sint 7) (.sint 0) (WVal.wint 9)).2.2 (fun h => Option.noConfusion h) rfl rfl
      (fun h => SVal.noConfusion h)).1
  · exact ((C5_backend_serializes envAll none none "users:k:h" rbOne rbStored
      (.sint 7) (.sint 0) (WVal.wint 9)).2.2 (fun h => Option.noConfusion h) rfl rfl
      (fun h => SVal.noConfusion h)).2

/-- C3: Backend-failure resilience — a backend exception never reaches
the caller (the wrappers are total functions of the injected failure
flags): under a `get` failure `cacheable` still invokes the operation
and returns its result (miss semantics); under a `set` failure on the
miss path `cacheable` returns the result with the store untouched;
under a `set` failure `cache_put` returns the result with the store
untouched; and under a `clear`/`delete` failure (or the call-time
`ValueError` of a missing namespace) `cache_evict` returns the result
with the store untouched. -/
theorem C3_backend_failure_resilience (env : ImportEnv) (cond : Option Bool)
    (unl : Option (SVal → Bool)) (k : String) (b : RedisB) (f : SVal)
    (ns : Option String) (allE beforeInv : Bool) :
    (b.getFail (rbKey b k) = true →
      (cacheableCall env cond unl k b f).result = f ∧
      (cacheableCall env cond unl k b f).invocations = 1) ∧
    (b.setFail (rbKey b k) = true → seesMiss env b k = true →
      cacheableCall env cond unl k b f = ⟨f, b, 1⟩) ∧
    (b.setFail (rbKey b k) = true → cachePutCall cond unl k b f = ⟨f, b, 1⟩) ∧
    ((allE = true ∧ b.clearFail = true) ∨ (allE = false ∧ ns = none) ∨
        (allE = false ∧ b.delFail (rbKey b k) = true) →
      cacheEvictCall cond ns allE beforeInv k b f = ⟨f, b, 1⟩) := by
  refine ⟨?_, ?_, ?_, ?_⟩
  · intro hget
    have hmiss : seesMiss env b k = true := by simp [seesMiss, hget]
    have hnone := hitCheck_of_seesMiss env b k hmiss
    cases cond with
    | none =>
      simp only [cacheableCall, hnone]
      exact missStore_spec unl k b f
    | some c =>
      cases c
      · exact ⟨rfl, rfl⟩
      · simp only [cacheableCall, hnone]
        exact missStore_spec unl k b f
  · intro hset hmiss
    have hnone := hitCheck_of_seesMiss env b k hmiss
    cases cond with
    | none =>
      simp only [cacheableCall, hnone]
      exact missStore_setFail unl f hset
    | some c =>
      cases c
      · rfl
      · simp only [cacheableCall, hnone]
        exact missStore_setFail unl f hset
  · intro hset
    cases cond with
    | none => exact missStore_setFail unl f hset
    | some c =>
      cases c
      · rfl
      · exact missStore_setFail unl f hset
  · intro h
    exact cacheEvictCall_of_evict_error cond beforeInv f (evictStep_error_cases h)

/-- Witness for C3 on a backend whose every operation raises. -/
theorem C3_backend_failure_resilience_witness :
    (cacheableCall envAll none none "users:k:h" rbFailing (.sint 5)).result =
      .sint 5 ∧
    cachePutCall none none "users:k:h" rbFailing (.sint 5) =
      ⟨.sint 5, rbFailing, 1⟩ ∧
    cacheEvictCall none (some "users") true false "users:k:h" rbFailing (.sint 5) =
      ⟨.sint 5, rbFailing, 1⟩ := by
  refine ⟨?_, ?_, ?_⟩
  · exact ((C3_backend_failure_resilience envAll none none "users:k:h" rbFailing
      (.sint 5) (some "users") true false).1 rfl).1
  · exact (C3_backend_failure_resilience envAll none none "users:k:h" rbFailing
      (.sint 5) (some "users") true false).2.2.1 rfl
  · exact (C3_backend_failure_resilience envAll none none "users:k:h" rbFailing
      (.sint 5) (some "users") true false).2.2.2 (Or.inl ⟨rfl, rfl⟩)

/-- C6: Write-through always-execute — `cache_put` invokes the
underlying operation exactly once on every call (whatever the cache
holds) and returns its result; the entry is overwritten with the new
result unless the `condition` guard is false or the `unless` guard is
true, in which case the result is still returned without storing. -/
theorem C6_cache_put_always_execute (cond : Option Bool) (unl : Option (SVal → Bool))
    (k : String) (b : RedisB) (f : SVal) :
    (cachePutCall cond unl k b f).invocations = 1 ∧
    (cachePutCall cond unl k b f).result = f ∧
    (cond = some false → (cachePutCall cond unl k b f).backend = b) ∧
    (unlessVal unl f = true → (cachePutCall cond unl k b f).backend = b) ∧
    (cond ≠ some false → unlessVal unl f = false → b.setFail (rbKey b k) = false →
      (cachePutCall cond unl k b f).backend.store (rbKey b k) = some (encodeW f)) := by
  refine ⟨?_, ?_, fun hc => ?_, fun hu => ?_, fun hc hu hs => ?_⟩
  · cases cond with
    | none => exact (missStore_spec unl k b f).2
    | some c =>
      cases c
      · rfl
      · exact (missStore_spec unl k b f).2
  · cases cond with
    | none => exact (missStore_spec unl k b f).1
    | some c =>
      cases c
      · rfl
      · exact (missStore_spec unl k b f).1
  · subst hc; rfl
  · cases cond with
    | none => simp [cachePutCall, missStore, hu]
    | some c =>
      cases c
      · rfl
      · simp [cachePutCall, missStore, hu]
  · cases cond with
    | none => exact (missStore_stores hu hs).1
    | some c =>
      cases c
      · exact absurd rfl hc
      · exact (missStore_stores hu hs).1

/-- Witness for C6: a `cache_put` call on a backend that already holds
an entry for the key still runs once and overwrites it. -/
theorem C6_cache_put_always_execute_witness :
    (cachePutCall none none "users:k:h" rbOne (.sint 5)).invocations = 1 ∧
    (cachePutCall none none "users:k:h" rbOne (.sint 5)).result = .sint 5 ∧
    (cachePutCall none none "users:k:h" rbOne
      (.sint 5)).backend.store (rbKey rbOne "users:k:h") = some (encodeW (.sint 5)) := by
  refine ⟨?_, ?_, ?_⟩
  · exact (C6_cache_put_always_execute none none "users:k:h" rbOne (.sint 5)).1
  · exact (C6_cache_put_always_execute none none "users:k:h" rbOne (.sint 5)).2.1
  · exact (C6_cache_put_always_execute none none "users:k:h" rbOne
      (.sint 5)).2.2.2.2 (fun h => Option.noConfusion h) rfl rfl

/-- C8 (counterexample): a genuinely new serialization format cannot
be added — registering under the fresh identifier `"cbor"` raises
`ValueError` inside the coercion to the closed `SerializationFormat`
enumeration. -/
theorem C8_new_format_rejected :
    registerSerializerM (Sum.inl "cbor") encNil decNull regEmpty = .error () := rfl

/-- C8 (amended): serializer/deserializer pairs can be registered at
runtime only for the closed set of predefined identifiers (json,
pickle, msgpack) — an unknown string identifier raises `ValueError` —
and after registering for a known identifier, serialize/deserialize
with it use the registered functions; calling serialize or
deserialize with a format missing from the registry raises, never a
silent fallback. -/
theorem C8_format_registry (r : SerRegistry) (dflt f : SerFormat) (e : EncFn)
    (d : DecFn) (v : SVal) (bs : List Nat) (s : String) :
    (s ≠ "json" → s ≠ "pickle" → s ≠ "msgpack" →
      registerSerializerM (Sum.inl s) e d r = .error ()) ∧
    registerSerializerM (Sum.inr f) e d r = .ok (r.insertFns f e d) ∧
    serializeM (r.insertFns f e d) dflt (some f) v = .ok (e v) ∧
    deserializeM (r.insertFns f e d) dflt (some f) bs = .ok (d bs) ∧
    (r.encs f = none → serializeM r dflt (some f) v = .error ()) ∧
    (r.decs f = none → deserializeM r dflt (some f) bs = .error ()) := by
  refine ⟨fun h1 h2 h3 => ?_, rfl, ?_, ?_, fun h => ?_, fun h => ?_⟩
  · simp [registerSerializerM, serFormatOfString, h1, h2, h3]
  · simp [serializeM, SerRegistry.insertFns]
  · simp [deserializeM, SerRegistry.insertFns]
  · simp [serializeM, h]
  · simp [deserializeM, h]

/-- Witness for C8 on the empty registry. -/
theorem C8_format_registry_witness :
    registerSerializerM (Sum.inl "cbor") encNil decNull regEmpty = .error () ∧
    serializeM (regEmpty.insertFns .json encNil decNull) .json (some .json)
      SVal.snull = .ok [] ∧
    serializeM regEmpty .json (some .json) SVal.snull = .error () := by
  refine ⟨?_, ?_, ?_⟩
  · exact (C8_format_registry regEmpty .json .json encNil decNull SVal.snull []
      "cbor").1 (by decide) (by decide) (by decide)
  · exact (C8_format_registry regEmpty .json .json encNil decNull SVal.snull []
      "cbor").2.2.1
  · exact (C8_format_registry regEmpty .json .json encNil decNull SVal.snull []
      "cbor").2.2.2.2.1 rfl

/-- C9: a stored `None` is indistinguishable from a cache miss —
whenever `backend.get` yields Python `None` (absent entry or cached
`None`), `cacheable` invokes the underlying operation and re-stores;
in particular, for an operation returning `None` the entry written by
the first call does not stop a second call from invoking the
operation again, so invoked-exactly-once fails for `None` results. -/
theorem C9_null_result_reinvoked (env : ImportEnv) (k : String) (b : RedisB)
    (hset : b.setFail (rbKey b k) = false) (hmiss : seesMiss env b k = true) :
    (cacheableCall env none none k b .snull).invocations = 1 ∧
    (cacheableCall env none none k b .snull).backend.store (rbKey b k) =
      some WVal.wnull ∧
    (cacheableCall env none none k
      (cacheableCall env none none k b .snull).backend .snull).invocations = 1 := by
  have hnone := hitCheck_of_seesMiss env b k hmiss
  have hred : cacheableCall env none none k b .snull = missStore none k b .snull := by
    simp only [cacheableCall, hnone]
  have hu : unlessVal none .snull = false := rfl
  have hstores := missStore_stores hu hset
  refine ⟨by rw [hred]; exact (missStore_spec none k b .snull).2, ?_, ?_⟩
  · rw [hred]; exact hstores.1
  · have hst : (cacheableCall env none none k b .snull).backend.store (rbKey b k) =
        some WVal.wnull := by rw [hred]; exact hstores.1
    have hkp : rbKey (cacheableCall env none none k b SVal.snull).backend k =
        rbKey b k := by
      rw [hred]
      show (missStore none k b .snull).backend.keyPref ++ ":" ++ k =
        b.keyPref ++ ":" ++ k
      rw [hstores.2.1]
    generalize hB : (cacheableCall env none none k b SVal.snull).backend = B at hst hkp ⊢
    have hm' : seesMiss env B k = true := by
      unfold seesMiss
      rw [hkp, hst]
      exact Bool.or_true _
    have hnone' := hitCheck_of_seesMiss env B k hm'
    simp only [cacheableCall, hnone']
    exact (missStore_spec none k B .snull).2

/-- Witness for C9: two calls, cold cache, both invoke the operation. -/
theorem C9_null_result_reinvoked_witness :
    (cacheableCall envAll none none "users:k:h" rbEmpty .snull).invocations = 1 ∧
    (cacheableCall envAll none none "users:k:h"
      (cacheableCall envAll none none "users:k:h" rbEmpty .snull).backend
      .snull).invocations = 1 := by
  refine ⟨?_, ?_⟩
  · exact (C9_null_result_reinvoked envAll "users:k:h" rbEmpty rfl rfl).1
  · exact (C9_null_result_reinvoked envAll "users:k:h" rbEmpty rfl rfl).2.2
